import Mathlib

/-!
Shallow embedding of the analytical core of the `gitoxide` commit-statistics
tooling, covering:

* `gitoxide-core/src/hours/core.rs`: `estimate_hours`, the per-item worker
  body of `spawn_tree_delta_threads`, and `deduplicate_identities`;
* the mailmap identity-resolution engine (`Snapshot::try_resolve` /
  `Snapshot::resolve`), whose implementation is not part of the provided
  sources (only its test suite `gix-mailmap/tests/snapshot/mod.rs` is), and
  which is therefore modelled from the specification and validated against
  the test suite's assertions.

The Rust code computes hours in `f32`; the embedding carries out the same
arithmetic exactly over `Rat`.  Machine integers (`u32`, `usize`) are
represented by `Nat`; the commit timestamp is represented as a nonnegative
count of seconds since the epoch (see `SignatureRef`).
-/

set_option autoImplicit false

namespace Gitoxide

/-- Per-commit file counters, `FileStats` from `hours/mod.rs`. -/
structure FileStats where
  added : Nat
  removed : Nat
  modified : Nat
deriving DecidableEq, Repr

/-- Modelled from the spec: counter-wise addition of file counters (§3,
"adds counters"); `FileStats::add` itself lives in `hours/util.rs`, outside
the provided sources. -/
def FileStats.add (a b : FileStats) : FileStats :=
  { added := a.added + b.added
    removed := a.removed + b.removed
    modified := a.modified + b.modified }

/-- Per-commit line counters, `LineStats` from `hours/mod.rs`. -/
structure LineStats where
  added : Nat
  removed : Nat
deriving DecidableEq, Repr

/-- Modelled from the spec: counter-wise addition of line counters (§3). -/
def LineStats.add (a b : LineStats) : LineStats :=
  { added := a.added + b.added
    removed := a.removed + b.removed }

/-- Modelled from the spec: the author stamp consumed by the estimator
(§3 "Signature — {name, email, timestamp: seconds-since-epoch}"); the
concrete type lives in `hours/mod.rs`, outside the provided sources.  The
timestamp is a count of seconds since the epoch, so the Rust
`saturating_sub` on it is `Nat` subtraction (truncating at zero). -/
structure SignatureRef where
  name : String
  email : String
  seconds : Nat
deriving DecidableEq, Repr

/-- One aggregate record per raw email, `WorkByEmail` from `hours/mod.rs`
(shape per spec §3 PerEmailAggregate). -/
structure WorkByEmail where
  name : String
  email : String
  hours : Rat
  num_commits : Nat
  files : FileStats
  lines : LineStats
deriving DecidableEq, Repr

def MINUTES_PER_HOUR : Rat := 60

def HOURS_PER_WORKDAY : Rat := 8

def MAX_COMMIT_DIFFERENCE_IN_MINUTES : Rat := 2 * MINUTES_PER_HOUR

def FIRST_COMMIT_ADDITION_IN_MINUTES : Rat := 2 * MINUTES_PER_HOUR

/-- The gap between an older and a newer commit, in minutes:
`(next.seconds().saturating_sub(cur.seconds())) as f32 / MINUTES_PER_HOUR`. -/
def gapMinutes (cur next : Nat) : Rat :=
  ((next - cur : Nat) : Rat) / MINUTES_PER_HOUR

/-- The hours contributed by one adjacent (older `cur`, newer `next`) pair,
the body of the `for next in commits` loop of `estimate_hours`. -/
def gapContribution (cur next : Nat) : Rat :=
  if gapMinutes cur next < MAX_COMMIT_DIFFERENCE_IN_MINUTES then
    gapMinutes cur next / MINUTES_PER_HOUR
  else
    FIRST_COMMIT_ADDITION_IN_MINUTES / MINUTES_PER_HOUR

/-- The gap walk of `estimate_hours`: `cur` is the current (older) commit's
timestamp, the list holds the remaining (newer) timestamps in
oldest-to-newest order. -/
def hoursGo (cur : Nat) : List Nat → Rat
  | [] => 0
  | next :: rest => gapContribution cur next + hoursGo next rest

/-- The `hours_for_commits` block of `estimate_hours`, on the commit
timestamps in oldest-to-newest order (the source iterates the newest-first
slice with `.rev()`). -/
def hours_for_commits (secondsOldestFirst : List Nat) : Rat :=
  match secondsOldestFirst with
  | [] => 0
  | cur :: rest => hoursGo cur rest

/-- The `binary_search_by` lookup over the stats slice.  The caller keeps
that slice sorted by commit index (spec §4.3), on which binary search
succeeds exactly when an entry with the given index exists; that is what a
linear `find?` computes. -/
def statsSearch (stats : List (Nat × FileStats × LineStats)) (id : Nat) :
    Option (Nat × FileStats × LineStats) :=
  stats.find? (fun t => t.1 = id)

/-- The file/line summation fold of `estimate_hours`. -/
def sumStats (commits : List (Nat × SignatureRef))
    (stats : List (Nat × FileStats × LineStats)) : FileStats × LineStats :=
  commits.foldl
    (fun acc t =>
      match statsSearch stats t.1 with
      | some s => (acc.1.add s.2.1, acc.2.add s.2.2)
      | none => acc)
    (⟨0, 0, 0⟩, ⟨0, 0⟩)

/-- `estimate_hours` from `gitoxide-core/src/hours/core.rs`.  The source
asserts that `commits` is non-empty and panics otherwise; the embedding
returns `none` in that case. -/
def estimate_hours (commits : List (Nat × SignatureRef))
    (stats : List (Nat × FileStats × LineStats)) : Option WorkByEmail :=
  match commits with
  | [] => none
  | c0 :: _ =>
    let hoursForCommits := hours_for_commits ((commits.map (fun t => t.2.seconds)).reverse)
    let author := c0.2
    let fl := if stats.isEmpty then ((⟨0, 0, 0⟩, ⟨0, 0⟩) : FileStats × LineStats)
              else sumStats commits stats
    some
      { name := author.name
        email := author.email
        hours := FIRST_COMMIT_ADDITION_IN_MINUTES / 60 + hoursForCommits
        num_commits := commits.length
        files := fl.1
        lines := fl.2 }

/-- The adjacent (older, newer) pairs of a timestamp list given in
oldest-to-newest order; used to state claims about the gap walk. -/
def adjacentPairs : List Nat → List (Nat × Nat)
  | a :: b :: rest => (a, b) :: adjacentPairs (b :: rest)
  | _ => []

/-- The per-gap hour contribution exactly as the claim states it:
`gap / 60` hours when the gap in minutes is strictly below 120, else
exactly 2 hours. -/
def claimGapHours (older newer : Nat) : Rat :=
  let gapInMinutes : Rat := ((newer - older : Nat) : Rat) / 60
  if gapInMinutes < 120 then gapInMinutes / 60 else 2

/-- The claim's total over all adjacent (older, newer) pairs of a
newest-first commit list. -/
def claimPairHours (commits : List (Nat × SignatureRef)) : Rat :=
  ((adjacentPairs ((commits.map (fun t => t.2.seconds)).reverse)).map
    (fun p => claimGapHours p.1 p.2)).sum

/-- One aggregate record per deduplicated person, `WorkByPerson` from
`hours/mod.rs` (shape per spec §3 PerPersonAggregate). -/
structure WorkByPerson where
  name : String
  email : String
  hours : Rat
  num_commits : Nat
  files : FileStats
  lines : LineStats
deriving DecidableEq, Repr

/-- Promotion of a per-email record, the `person_by_email.into()` of
`deduplicate_identities` (spec §3: "created by promoting the first
PerEmailAggregate seen for a new identity"). -/
def WorkByPerson.ofWorkByEmail (w : WorkByEmail) : WorkByPerson :=
  { name := w.name
    email := w.email
    hours := w.hours
    num_commits := w.num_commits
    files := w.files
    lines := w.lines }

/-- Modelled from the spec: the merge used by `deduplicate_identities`
"adds counters and keeps the receiver's name/email" (§3, §4.4); the
implementation of `WorkByPerson::merge` lives in `hours/mod.rs`, outside
the provided sources. -/
def WorkByPerson.merge (w : WorkByPerson) (o : WorkByEmail) : WorkByPerson :=
  { w with
    hours := w.hours + o.hours
    num_commits := w.num_commits + o.num_commits
    files := w.files.add o.files
    lines := w.lines.add o.lines }

/-- The identity pair of an output record; merging never changes it. -/
def WorkByPerson.idPair (w : WorkByPerson) : String × String :=
  (w.name, w.email)

/-- Lookup in one of the two `HashMap<&BStr, usize>` index tables.  The
tables are represented as association lists; `insert` conses a binding at
the front, where this lookup finds it first, matching the map's
overwrite-on-insert semantics. -/
def lookupIdx : List (String × Nat) → String → Option Nat
  | [], _ => none
  | (k, v) :: rest, key => if k = key then some v else lookupIdx rest key

/-- In-place update of the output record at index `i`
(`out[idx].merge(person_by_email)`); leaves the list unchanged when the
index is out of range. -/
def modifyIdx {α : Type} : List α → Nat → (α → α) → List α
  | [], _, _ => []
  | x :: xs, 0, f => f x :: xs
  | x :: xs, n + 1, f => x :: modifyIdx xs n f

/-- The loop state of `deduplicate_identities`: the two key-to-index
tables and the output list. -/
structure DedupState where
  email_to_index : List (String × Nat)
  name_to_index : List (String × Nat)
  out : List WorkByPerson
deriving DecidableEq, Repr

/-- One iteration of the `for person_by_email in persons` loop of
`deduplicate_identities`: match on the email entry first (occupied: merge
there and index the name); otherwise on the name entry (occupied: merge
there and index the email); otherwise create a new output record indexed
under both keys. -/
def dedupStep (st : DedupState) (p : WorkByEmail) : DedupState :=
  match lookupIdx st.email_to_index p.email with
  | some i =>
    { st with
      out := modifyIdx st.out i (fun w => w.merge p)
      name_to_index := (p.name, i) :: st.name_to_index }
  | none =>
    match lookupIdx st.name_to_index p.name with
    | some i =>
      { st with
        out := modifyIdx st.out i (fun w => w.merge p)
        email_to_index := (p.email, i) :: st.email_to_index }
    | none =>
      { email_to_index := (p.email, st.out.length) :: st.email_to_index
        name_to_index := (p.name, st.out.length) :: st.name_to_index
        out := st.out ++ [WorkByPerson.ofWorkByEmail p] }

/-- `deduplicate_identities` from `gitoxide-core/src/hours/core.rs`: a
single left-to-right pass over the per-email records. -/
def deduplicate_identities (persons : List WorkByEmail) : List WorkByPerson :=
  (persons.foldl dedupStep ⟨[], [], []⟩).out

/-- Total commit count of a per-person list. -/
def sumCommitsP (l : List WorkByPerson) : Nat :=
  (l.map (fun w => w.num_commits)).sum

/-- Total commit count of a per-email list. -/
def sumCommitsE (l : List WorkByEmail) : Nat :=
  (l.map (fun w => w.num_commits)).sum

/-- An author/committer identity stamp (spec §3 Signature); the timestamp
is carried through resolution unchanged. -/
structure Signature where
  name : String
  email : String
  time : Int
deriving DecidableEq, Repr

/-- ASCII-lowercasing used for the case-insensitive match keys. -/
def lowerAscii (s : String) : String :=
  ⟨s.data.map Char.toLower⟩

/-- Modelled from the spec: a rule's match key, "either `ByEmail(email)` or
`ByNameAndEmail(name, email)`, compared case-insensitively" (§3); the rule
type lives in the `gix-mailmap` crate, whose implementation is not among
the provided sources. -/
inductive MatchKey where
  | byEmail (email : String)
  | byNameAndEmail (name email : String)
deriving DecidableEq, Repr

/-- Modelled from the spec: a rule's replacement, "one of `Name(new_name)`,
`Email(new_email)`, or `NameAndEmail(new_name, new_email)`" (§3). -/
inductive Replacement where
  | name (newName : String)
  | email (newEmail : String)
  | nameAndEmail (newName newEmail : String)
deriving DecidableEq, Repr

/-- The new name supplied by a replacement, if any. -/
def Replacement.newNameOf : Replacement → Option String
  | .name n => some n
  | .email _ => none
  | .nameAndEmail n _ => some n

/-- The new email supplied by a replacement, if any. -/
def Replacement.newEmailOf : Replacement → Option String
  | .name _ => none
  | .email e => some e
  | .nameAndEmail _ e => some e

/-- Modelled from the spec: a canonicalization rule (§3). -/
structure Rule where
  key : MatchKey
  repl : Replacement
deriving DecidableEq, Repr

/-- Modelled from the spec: one email bucket of the rule table, "normalized
email → {optional default rule matched by email alone, mapping from
normalized name → rule matched by name+email}" (§3). -/
structure Bucket where
  email : String
  dflt : Option Replacement
  byName : List (String × Replacement)
deriving DecidableEq, Repr

/-- Modelled from the spec: the rule table, a list of buckets with pairwise
distinct normalized-email keys (§3 RuleTable). -/
abbrev Snapshot := List Bucket

/-- Lookup of a name-specific rule inside a bucket, by normalized name.
Insertion conses the newest binding at the front, where this lookup finds
it first, matching overwrite-on-insert. -/
def lookupRepl : List (String × Replacement) → String → Option Replacement
  | [], _ => none
  | (k, v) :: rest, key => if k = key then some v else lookupRepl rest key

/-- Modelled from the spec: applying a matched rule's replacement to an
input signature (§4.1 step 2): "the output name is the rule's new name if
supplied, otherwise the input's original name is preserved verbatim; the
output email is the rule's new email if supplied, otherwise the canonical
(bucket) email". -/
def applyRepl (sig : Signature) (bucketEmail : String) : Replacement → Signature
  | .name n => { sig with name := n, email := bucketEmail }
  | .email e => { sig with email := e }
  | .nameAndEmail n e => { sig with name := n, email := e }

/-- Modelled from the spec: `Snapshot::try_resolve` (§4.1 steps 1-4);
the implementation lives in the `gix-mailmap` crate, of which only the
test suite is among the provided sources. -/
def try_resolve (s : Snapshot) (sig : Signature) : Option Signature :=
  match s.find? (fun b => b.email = lowerAscii sig.email) with
  | none => none
  | some b =>
    match lookupRepl b.byName (lowerAscii sig.name) with
    | some r => some (applyRepl sig b.email r)
    | none =>
      match b.dflt with
      | some r => some (applyRepl sig b.email r)
      | none => none

/-- Modelled from the spec: `Snapshot::resolve`, "`try_resolve` with
fallback to a verbatim copy of the input signature" (§4.1 step 5). -/
def resolve (s : Snapshot) (sig : Signature) : Signature :=
  (try_resolve s sig).getD sig

/-- The replacement `try_resolve` selects, as a function of the normalized
name and email keys alone; used to state that matching is
case-insensitive. -/
def matchedRepl (s : Snapshot) (nameKey emailKey : String) : Option Replacement :=
  match s.find? (fun b => b.email = emailKey) with
  | none => none
  | some b =>
    match lookupRepl b.byName nameKey with
    | some r => some r
    | none => b.dflt

/-- Update (or create) the bucket with normalized-email key `ek`. -/
def upsertBucket (s : Snapshot) (ek : String) (f : Bucket → Bucket) : Snapshot :=
  match s with
  | [] => [f { email := ek, dflt := none, byName := [] }]
  | b :: rest => if b.email = ek then f b :: rest else b :: upsertBucket rest ek f

/-- Overwrite-on-insert for the name-specific rules of a bucket. -/
def insertRepl (m : List (String × Replacement)) (k : String) (v : Replacement) :
    List (String × Replacement) :=
  (k, v) :: m

/-- Modelled from the spec: inserting one rule into the table, where "a
rule whose match key (email, or email+name) already exists overwrites the
previously stored replacement for that exact key" (§4.1 Construction). -/
def insertRule (s : Snapshot) (r : Rule) : Snapshot :=
  match r.key with
  | .byEmail e =>
    upsertBucket s (lowerAscii e) (fun b => { b with dflt := some r.repl })
  | .byNameAndEmail n e =>
    upsertBucket s (lowerAscii e)
      (fun b => { b with byName := insertRepl b.byName (lowerAscii n) r.repl })

/-- Modelled from the spec: building the table from an ordered rule list,
one insertion at a time (§3, §4.1 Construction). -/
def buildSnapshot (rules : List Rule) : Snapshot :=
  rules.foldl insertRule []

/-- Constructor mirroring `Entry::change_name_by_email(new_name, old_email)`. -/
def change_name_by_email (newName oldEmail : String) : Rule :=
  { key := .byEmail oldEmail, repl := .name newName }

/-- Constructor mirroring `Entry::change_email_by_email`. -/
def change_email_by_email (newEmail oldEmail : String) : Rule :=
  { key := .byEmail oldEmail, repl := .email newEmail }

/-- Constructor mirroring `Entry::change_name_and_email_by_email`. -/
def change_name_and_email_by_email (newName newEmail oldEmail : String) : Rule :=
  { key := .byEmail oldEmail, repl := .nameAndEmail newName newEmail }

/-- Constructor mirroring `Entry::change_email_by_name_and_email`. -/
def change_email_by_name_and_email (newEmail oldName oldEmail : String) : Rule :=
  { key := .byNameAndEmail oldName oldEmail, repl := .email newEmail }

/-- Constructor mirroring
`Entry::change_name_and_email_by_name_and_email(new_name, new_email, old_name, old_email)`. -/
def change_name_and_email_by_name_and_email (newName newEmail oldName oldEmail : String) : Rule :=
  { key := .byNameAndEmail oldName oldEmail, repl := .nameAndEmail newName newEmail }

/-- The effective rules of the `typical.txt` fixture, as listed by the
`entries()` assertion of the `try_resolve` test
(`gix-mailmap/tests/snapshot/mod.rs`, lines 59-74). -/
def typicalSnapshot : Snapshot :=
  buildSnapshot
    [ change_name_and_email_by_name_and_email "Jane Doe" "jane@example.com" "Jane" "bugs@example.com"
    , change_name_and_email_by_name_and_email "Joe R. Developer" "joe@example.com" "Joe" "bugs@example.com"
    , change_name_and_email_by_email "Jane Doe" "jane@example.com" "jane@desktop.(none)"
    , change_email_by_name_and_email "jane@example.com" "Jane" "Jane@ipad.(none)"
    , change_name_and_email_by_email "Jane Doe" "jane@example.com" "jane@laptop.(none)"
    , change_name_by_email "Joe R. Developer" "joe@example.com" ]

example :
    try_resolve typicalSnapshot { name := "Foo", email := "Joe@example.com", time := 42 } =
      some { name := "Joe R. Developer", email := "joe@example.com", time := 42 } := by
  decide

example :
    try_resolve typicalSnapshot { name := "Joe", email := "bugs@example.com", time := 42 } =
      some { name := "Joe R. Developer", email := "joe@example.com", time := 42 } := by
  decide

example :
    try_resolve typicalSnapshot { name := "janE", email := "Bugs@example.com", time := 42 } =
      some { name := "Jane Doe", email := "jane@example.com", time := 42 } := by
  decide

example :
    try_resolve typicalSnapshot { name := "Jane", email := "jane@laptop.(none)", time := 42 } =
      some { name := "Jane Doe", email := "jane@example.com", time := 42 } := by
  decide

example :
    resolve typicalSnapshot { name := "janE", email := "jane@ipad.(none)", time := 42 } =
      { name := "janE", email := "jane@example.com", time := 42 } := by
  decide

example :
    try_resolve typicalSnapshot { name := "Jane", email := "other@example.com", time := 42 } =
      none := by
  decide

example :
    try_resolve typicalSnapshot { name := "Jean", email := "bugs@example.com", time := 42 } =
      none := by
  decide

/-- Modelled from the spec: the kind of a git tree entry.  The entry-mode
type lives in the object-data-model crate, which is outside the provided
sources (spec §1 places the object store out of scope); the mining worker
observes it only through `is_no_tree` and `is_blob`.  Git tree entries are
directories (`tree`), regular files (`blob`), executable files
(`blobExecutable`), symbolic links (`link`), or submodule references
(`commit`). -/
inductive EntryKind where
  | tree
  | blob
  | blobExecutable
  | link
  | commit
deriving DecidableEq, Repr

/-- Whether the entry is anything but a directory (`EntryMode::is_no_tree`). -/
def EntryKind.is_no_tree : EntryKind → Bool
  | .tree => false
  | _ => true

/-- Whether the entry is a regular or executable file
(`EntryMode::is_blob`); false for symbolic links and submodule
references. -/
def EntryKind.is_blob : EntryKind → Bool
  | .blob => true
  | .blobExecutable => true
  | _ => false

/-- One change reported by the tree diff
(`gix::object::tree::diff::Change`), carrying the entry modes and the blob
ids the worker consumes.  Blob ids are abstract `Nat` handles. -/
inductive Change where
  | Rewrite
  | Addition (entry_mode : EntryKind) (id : Nat)
  | Deletion (entry_mode : EntryKind) (id : Nat)
  | Modification (previous_entry_mode : EntryKind) (entry_mode : EntryKind)
      (previous_id : Nat) (id : Nat)
deriving DecidableEq, Repr

/-- The pure environment a worker consults while classifying changes:
whether line statistics are enabled, the object store's blob line counts,
and the content-diff engine's (insertions, removals) counts, which may
fail (`Except.error`, fatal for the worker) or report no counts. -/
structure DiffEnv where
  line_stats : Bool
  blobLines : Nat → Nat
  diffCounts : Nat → Nat → Except String (Option (Nat × Nat))

/-- Modelled from the spec: `add_lines` from `hours/util.rs` (outside the
provided sources): "if line statistics are enabled, count the full added
blob's line count as added lines" (§4.2 step 4).  The shared atomic
progress counter it also bumps is observational only (spec §4.2 step 5)
and is not part of the pure model. -/
def add_lines (env : DiffEnv) (lines : LineStats) (id : Nat) : LineStats :=
  if env.line_stats then { lines with added := lines.added + env.blobLines id } else lines

/-- Modelled from the spec: `remove_lines` from `hours/util.rs`, symmetric
line counting on the removed blob (§4.2 step 4). -/
def remove_lines (env : DiffEnv) (lines : LineStats) (id : Nat) : LineStats :=
  if env.line_stats then { lines with removed := lines.removed + env.blobLines id } else lines

/-- The per-change classification of the `for_each_to_obtain_tree` closure
in `spawn_tree_delta_threads`: `Addition`/`Deletion` count the entry when
its mode `is_no_tree`; `Modification` matches on
`(previous_entry_mode.is_blob(), entry_mode.is_blob())`.  `Rewrite` is
`unreachable!` in the source (rewrite tracking is disabled); the panic and
a content-diff failure are both modelled as `Except.error`. -/
def processChange (env : DiffEnv) (acc : FileStats × LineStats) :
    Change → Except String (FileStats × LineStats)
  | .Rewrite => .error "unreachable: rewrite tracking is disabled"
  | .Addition em id =>
    if em.is_no_tree then
      .ok ({ acc.1 with added := acc.1.added + 1 }, add_lines env acc.2 id)
    else
      .ok acc
  | .Deletion em id =>
    if em.is_no_tree then
      .ok ({ acc.1 with removed := acc.1.removed + 1 }, remove_lines env acc.2 id)
    else
      .ok acc
  | .Modification pem em pid id =>
    match pem.is_blob, em.is_blob with
    | false, false => .ok acc
    | false, true =>
      .ok ({ acc.1 with added := acc.1.added + 1 }, add_lines env acc.2 id)
    | true, false =>
      .ok ({ acc.1 with removed := acc.1.removed + 1 }, remove_lines env acc.2 pid)
    | true, true =>
      if env.line_stats then
        match env.diffCounts pid id with
        | .error e => .error e
        | .ok none => .ok ({ acc.1 with modified := acc.1.modified + 1 }, acc.2)
        | .ok (some c) =>
          .ok ({ acc.1 with modified := acc.1.modified + 1 },
            { acc.2 with added := acc.2.added + c.1, removed := acc.2.removed + c.2 })
      else
        .ok ({ acc.1 with modified := acc.1.modified + 1 }, acc.2)

/-- The per-change classification exactly as the claim states it: every
change, `Addition` and `Deletion` included, is classified by the pair
(previous entry is a blob, current entry is a blob); a missing side is not
a blob. -/
def claimBlobStep (env : DiffEnv) (acc : FileStats × LineStats)
    (prevBlob curBlob : Bool) (pid id : Nat) : FileStats × LineStats :=
  match prevBlob, curBlob with
  | false, false => acc
  | false, true => ({ acc.1 with added := acc.1.added + 1 }, add_lines env acc.2 id)
  | true, false => ({ acc.1 with removed := acc.1.removed + 1 }, remove_lines env acc.2 pid)
  | true, true =>
    if env.line_stats then
      match env.diffCounts pid id with
      | .error _ => acc
      | .ok none => ({ acc.1 with modified := acc.1.modified + 1 }, acc.2)
      | .ok (some c) =>
        ({ acc.1 with modified := acc.1.modified + 1 },
          { acc.2 with added := acc.2.added + c.1, removed := acc.2.removed + c.2 })
    else
      ({ acc.1 with modified := acc.1.modified + 1 }, acc.2)

/-- The claim's classification of a whole change: for `Addition` the
previous side is absent (not a blob), for `Deletion` the current side is
absent (not a blob). -/
def claimProcessChange (env : DiffEnv) (acc : FileStats × LineStats) :
    Change → Except String (FileStats × LineStats)
  | .Rewrite => .error "unreachable: rewrite tracking is disabled"
  | .Addition em id => .ok (claimBlobStep env acc false em.is_blob 0 id)
  | .Deletion em id => .ok (claimBlobStep env acc em.is_blob false id 0)
  | .Modification pem em pid id =>
    if pem.is_blob ∧ em.is_blob then
      match env.diffCounts pid id, env.line_stats with
      | .error e, true => .error e
      | _, _ => .ok (claimBlobStep env acc pem.is_blob em.is_blob pid id)
    else
      .ok (claimBlobStep env acc pem.is_blob em.is_blob pid id)

/-- The classification as amended: `Addition` and `Deletion` are
classified by whether their single entry is not a tree, counting symbolic
links and submodule references as files too; only `Modification` is
classified by the blob-ness pair. -/
def amendedProcessChange (env : DiffEnv) (acc : FileStats × LineStats) :
    Change → Except String (FileStats × LineStats)
  | .Rewrite => .error "unreachable: rewrite tracking is disabled"
  | .Addition em id =>
    .ok (if em.is_no_tree then
      ({ acc.1 with added := acc.1.added + 1 }, add_lines env acc.2 id)
    else acc)
  | .Deletion em id =>
    .ok (if em.is_no_tree then
      ({ acc.1 with removed := acc.1.removed + 1 }, remove_lines env acc.2 id)
    else acc)
  | .Modification pem em pid id =>
    if pem.is_blob ∧ em.is_blob then
      match env.diffCounts pid id, env.line_stats with
      | .error e, true => .error e
      | _, _ => .ok (claimBlobStep env acc pem.is_blob em.is_blob pid id)
    else
      .ok (claimBlobStep env acc pem.is_blob em.is_blob pid id)

/-- Folding the per-change classification over all changes of one commit's
tree diff. -/
def foldChanges (env : DiffEnv) (cs : List Change) :
    Except String (FileStats × LineStats) :=
  cs.foldlM (processChange env) ((⟨0, 0, 0⟩, ⟨0, 0⟩) : FileStats × LineStats)

/-- One work item: `(commit_idx, parent_commit, commit)`; object ids are
abstract `Nat` handles. -/
structure WorkItem where
  commit_idx : Nat
  parent_commit : Option Nat
  commit : Nat
deriving DecidableEq, Repr

/-- The environment of one worker thread of `spawn_tree_delta_threads`:
`resolveTree` is `repo.find_object(id).ok().and_then(peel_to_tree().ok())`
(`none` = missing or unresolvable), `emptyTree` is `repo.empty_tree()`,
`changesOf` is the tree-diff engine on two resolved trees (its error is
fatal for the worker), and `interrupt` is the sequence of reads of the
process-wide interrupt flag: the flag is read exactly once per item, right
after the shared commit counter is incremented, so the reads form a
function of that counter's value. -/
structure WorkerEnv where
  diff : DiffEnv
  resolveTree : Nat → Option Nat
  emptyTree : Nat
  changesOf : Nat → Nat → Except String (List Change)
  interrupt : Nat → Bool

/-- Per-item processing after the interrupt check: resolve the parent tree
(empty tree for a root commit; unresolvable parent or commit skips the
item, `.ok none`), resolve the target tree, diff, and fold the change
classification; a produced stat is `(commit_idx, files, lines)`. -/
def processItem (env : WorkerEnv) (item : WorkItem) :
    Except String (Option (Nat × FileStats × LineStats)) :=
  match (match item.parent_commit with
         | some id => env.resolveTree id
         | none => some env.emptyTree) with
  | none => .ok none
  | some fromTree =>
    match env.resolveTree item.commit with
    | none => .ok none
    | some toTree =>
      match env.changesOf fromTree toTree with
      | .error e => .error e
      | .ok cs =>
        match foldChanges env.diff cs with
        | .error e => .error e
        | .ok fl => .ok (some (item.commit_idx, fl.1, fl.2))

/-- The worker's receive loop (`for chunk in rx { for item in chunk }`):
`cur` is the remainder of the chunk being drained, `chunks` the batches
still in the channel, `n` the number of items whose processing has begun
(the shared commit counter), `out` the accumulated local results.  Before
each individual item the interrupt flag is consulted; if set, the
accumulated results are returned as a success. -/
def workerGo (env : WorkerEnv) (cur : List WorkItem) (chunks : List (List WorkItem))
    (n : Nat) (out : List (Nat × FileStats × LineStats)) :
    Except String (List (Nat × FileStats × LineStats)) :=
  match cur, chunks with
  | [], [] => .ok out
  | [], chunk :: rest => workerGo env chunk rest n out
  | item :: items, rest =>
    if env.interrupt (n + 1) then .ok out
    else
      match processItem env item with
      | .error e => .error e
      | .ok none => workerGo env items rest (n + 1) out
      | .ok (some stat) => workerGo env items rest (n + 1) (out ++ [stat])
termination_by (chunks.length, cur.length)

/-- One worker's whole run over the batches submitted through the
channel. -/
def runWorker (env : WorkerEnv) (chunks : List (List WorkItem)) :
    Except String (List (Nat × FileStats × LineStats)) :=
  workerGo env [] chunks 0 []

theorem adjacentPairs_nil : adjacentPairs [] = [] := rfl

theorem adjacentPairs_single (a : Nat) : adjacentPairs [a] = [] := rfl

theorem adjacentPairs_cons (a b : Nat) (l : List Nat) :
    adjacentPairs (a :: b :: l) = (a, b) :: adjacentPairs (b :: l) := rfl

theorem gapContribution_eq_claim (a b : Nat) :
    gapContribution a b = claimGapHours a b := by
  unfold gapContribution claimGapHours gapMinutes MAX_COMMIT_DIFFERENCE_IN_MINUTES
    FIRST_COMMIT_ADDITION_IN_MINUTES MINUTES_PER_HOUR
  norm_num

theorem hoursGo_eq_pairs (l : List Nat) :
    ∀ a, hoursGo a l
      = ((adjacentPairs (a :: l)).map (fun p => claimGapHours p.1 p.2)).sum := by
  induction l with
  | nil => intro a; simp [hoursGo, adjacentPairs_single]
  | cons b rest ih =>
    intro a
    simp [hoursGo, adjacentPairs_cons, ih b, gapContribution_eq_claim]

theorem hours_for_commits_eq (l : List Nat) :
    hours_for_commits l
      = ((adjacentPairs l).map (fun p => claimGapHours p.1 p.2)).sum := by
  cases l with
  | nil => simp [hours_for_commits, adjacentPairs_nil]
  | cons a rest => simpa [hours_for_commits] using hoursGo_eq_pairs rest a

theorem first_commit_addition_hours :
    FIRST_COMMIT_ADDITION_IN_MINUTES / 60 = (2 : Rat) := by
  norm_num [FIRST_COMMIT_ADDITION_IN_MINUTES, MINUTES_PER_HOUR]

/-- C1: for every non-empty newest-first commit list, `estimate_hours`
returns total hours equal to the sum over adjacent (older, newer) pairs of
(gap/60 hours if the gap in minutes is strictly below 120, else exactly
2 hours) plus a flat 2-hour first-commit allowance added exactly once per
call; a single-commit group yields exactly 2 hours. -/
theorem estimate_hours_spec (commits : List (Nat × SignatureRef))
    (stats : List (Nat × FileStats × LineStats)) (h : commits ≠ []) :
    (estimate_hours commits stats).map (fun w => w.hours)
      = some (claimPairHours commits + 2)
    ∧ (commits.length = 1 →
        (estimate_hours commits stats).map (fun w => w.hours) = some 2) := by
  match commits, h with
  | c :: cs, _ =>
    constructor
    · simp only [estimate_hours, Option.map_some']
      rw [hours_for_commits_eq, first_commit_addition_hours]
      unfold claimPairHours
      exact congrArg some (add_comm _ _)
    · intro hlen
      have hcs : cs = [] := by
        cases cs with
        | nil => rfl
        | cons _ _ => simp at hlen
      subst hcs
      simp only [estimate_hours, Option.map_some', List.map, List.reverse_cons,
        List.reverse_nil, List.nil_append, hours_for_commits, hoursGo]
      rw [first_commit_addition_hours]
      norm_num

/-- C1 witness: a two-commit group (timestamps 600 and 0, newest first)
and a one-commit group, with the hypotheses discharged concretely. -/
theorem estimate_hours_spec_witness :
    ((estimate_hours [(0, ⟨"author", "author@example.com", 600⟩),
        (1, ⟨"author", "author@example.com", 0⟩)] []).map (fun w => w.hours)
      = some (claimPairHours [(0, ⟨"author", "author@example.com", 600⟩),
          (1, ⟨"author", "author@example.com", 0⟩)] + 2))
    ∧ ((estimate_hours [(0, ⟨"author", "author@example.com", 42⟩)] []).map
        (fun w => w.hours) = some 2) :=
  ⟨(estimate_hours_spec [(0, ⟨"author", "author@example.com", 600⟩),
      (1, ⟨"author", "author@example.com", 0⟩)] [] (by simp)).1,
   (estimate_hours_spec [(0, ⟨"author", "author@example.com", 42⟩)] []
      (by simp)).2 rfl⟩

theorem gapContribution_nonneg (a b : Nat) : 0 ≤ gapContribution a b := by
  unfold gapContribution gapMinutes MAX_COMMIT_DIFFERENCE_IN_MINUTES
    FIRST_COMMIT_ADDITION_IN_MINUTES MINUTES_PER_HOUR
  split
  · positivity
  · norm_num

theorem hoursGo_nonneg (l : List Nat) : ∀ a, 0 ≤ hoursGo a l := by
  induction l with
  | nil => intro a; simp [hoursGo]
  | cons b rest ih =>
    intro a
    have h1 := gapContribution_nonneg a b
    have h2 := ih b
    simp only [hoursGo]
    linarith

theorem hours_for_commits_nonneg (l : List Nat) : 0 ≤ hours_for_commits l := by
  cases l with
  | nil => simp [hours_for_commits]
  | cons a rest => simpa [hours_for_commits] using hoursGo_nonneg rest a

/-- C9: for every non-empty commit list, monotone or not, `estimate_hours`
is total and returns at least 2 hours; each adjacent-pair gap is computed
with saturating subtraction, so a pair whose newer commit's timestamp is
at most the older one's contributes exactly 0 hours, never a negative or
wrapped value. -/
theorem estimate_hours_safety (commits : List (Nat × SignatureRef))
    (stats : List (Nat × FileStats × LineStats)) (h : commits ≠ []) :
    (∃ w, estimate_hours commits stats = some w ∧ 2 ≤ w.hours)
    ∧ (∀ a b : Nat, b ≤ a → gapContribution a b = 0) := by
  constructor
  · match commits, h with
    | c :: cs, _ =>
      refine ⟨_, rfl, ?_⟩
      show (2 : Rat) ≤ FIRST_COMMIT_ADDITION_IN_MINUTES / 60 + _
      rw [first_commit_addition_hours]
      have := hours_for_commits_nonneg (((c :: cs).map (fun t => t.2.seconds)).reverse)
      linarith
  · intro a b hba
    unfold gapContribution gapMinutes MAX_COMMIT_DIFFERENCE_IN_MINUTES
      FIRST_COMMIT_ADDITION_IN_MINUTES MINUTES_PER_HOUR
    rw [Nat.sub_eq_zero_of_le hba]
    norm_num

/-- C9 witness: a commit list whose timestamps are out of order
(newest-first position holds the older timestamp) still yields at least
2 hours, and the reversed pair (older 500, newer 0) contributes 0. -/
theorem estimate_hours_safety_witness :
    (∃ w, estimate_hours [(0, ⟨"a", "a@a", 0⟩), (1, ⟨"a", "a@a", 500⟩)] [] = some w
      ∧ 2 ≤ w.hours)
    ∧ gapContribution 500 0 = 0 :=
  ⟨(estimate_hours_safety [(0, ⟨"a", "a@a", 0⟩), (1, ⟨"a", "a@a", 500⟩)] []
      (by simp)).1,
   (estimate_hours_safety [(0, ⟨"a", "a@a", 0⟩), (1, ⟨"a", "a@a", 500⟩)] []
      (by simp)).2 500 0 (by norm_num)⟩

/-- C5: `resolve` never fails: when `try_resolve` answers it returns that
answer, and when `try_resolve` answers nothing it returns a verbatim copy
of the input signature. -/
theorem resolve_total (s : Snapshot) (sig x : Signature) :
    (try_resolve s sig = some x → resolve s sig = x)
    ∧ (try_resolve s sig = none → resolve s sig = sig) := by
  constructor <;> intro h <;> simp [resolve, h]

/-- C5 witness: on the fixture table, a matched signature resolves to the
`try_resolve` answer and an unmatched one resolves to itself. -/
theorem resolve_total_witness :
    resolve typicalSnapshot { name := "Foo", email := "Joe@example.com", time := 42 }
      = { name := "Joe R. Developer", email := "joe@example.com", time := 42 }
    ∧ resolve typicalSnapshot { name := "Jane", email := "other@example.com", time := 42 }
      = { name := "Jane", email := "other@example.com", time := 42 } :=
  ⟨(resolve_total typicalSnapshot
      { name := "Foo", email := "Joe@example.com", time := 42 }
      { name := "Joe R. Developer", email := "joe@example.com", time := 42 }).1
      (by decide),
   (resolve_total typicalSnapshot
      { name := "Jane", email := "other@example.com", time := 42 }
      { name := "Jane", email := "other@example.com", time := 42 }).2
      (by decide)⟩

/-- C2: rule matching is case-insensitive in both name and email (the
selected replacement depends only on the lowercased keys), resolution
applies the selected replacement to the input signature with the
lowercased input email as the canonical bucket email, a replacement
without a new name keeps the input's name verbatim, and a replacement
without a new email returns the canonical bucket email. -/
theorem try_resolve_case_insensitive (s : Snapshot) (sig sig' : Signature)
    (hn : lowerAscii sig.name = lowerAscii sig'.name)
    (he : lowerAscii sig.email = lowerAscii sig'.email)
    (be : String) (r : Replacement) :
    matchedRepl s (lowerAscii sig'.name) (lowerAscii sig'.email)
      = matchedRepl s (lowerAscii sig.name) (lowerAscii sig.email)
    ∧ try_resolve s sig
      = (matchedRepl s (lowerAscii sig.name) (lowerAscii sig.email)).map
          (applyRepl sig (lowerAscii sig.email))
    ∧ (r.newNameOf = none → (applyRepl sig be r).name = sig.name)
    ∧ (r.newEmailOf = none → (applyRepl sig be r).email = be) := by
  refine ⟨by rw [hn, he], ?_, ?_, ?_⟩
  · unfold try_resolve matchedRepl
    cases hfind : s.find? (fun b => b.email = lowerAscii sig.email) with
    | none => rfl
    | some b =>
      have hb : b.email = lowerAscii sig.email := by
        have := List.find?_some hfind
        simpa using this
      simp only [hb]
      cases hrep : lookupRepl b.byName (lowerAscii sig.name) with
      | some r' => simp [hrep]
      | none =>
        cases hd : b.dflt with
        | some r' => simp [hrep, hd]
        | none => simp [hrep, hd]
  · intro hr
    cases r <;> simp_all [Replacement.newNameOf, applyRepl]
  · intro hr
    cases r <;> simp_all [Replacement.newEmailOf, applyRepl]

/-- C2 witness: "janE"/"Bugs@example.com" and "Jane"/"bugs@example.com"
select the same rule on the fixture table; an email-only replacement keeps
the input name "janE"; a name-only replacement returns the bucket email. -/
theorem try_resolve_case_insensitive_witness :
    matchedRepl typicalSnapshot (lowerAscii "Jane") (lowerAscii "bugs@example.com")
      = matchedRepl typicalSnapshot (lowerAscii "janE") (lowerAscii "Bugs@example.com")
    ∧ try_resolve typicalSnapshot { name := "janE", email := "Bugs@example.com", time := 42 }
      = (matchedRepl typicalSnapshot (lowerAscii "janE") (lowerAscii "Bugs@example.com")).map
          (applyRepl { name := "janE", email := "Bugs@example.com", time := 42 }
            (lowerAscii "Bugs@example.com"))
    ∧ (applyRepl { name := "janE", email := "Bugs@example.com", time := 42 }
        "bugs@example.com" (.email "jane@example.com")).name = "janE"
    ∧ (applyRepl { name := "janE", email := "Bugs@example.com", time := 42 }
        "bugs@example.com" (.name "Jane Doe")).email = "bugs@example.com" :=
  ⟨(try_resolve_case_insensitive typicalSnapshot
      { name := "janE", email := "Bugs@example.com", time := 42 }
      { name := "Jane", email := "bugs@example.com", time := 42 }
      (by decide) (by decide) "bugs@example.com" (.email "jane@example.com")).1,
   (try_resolve_case_insensitive typicalSnapshot
      { name := "janE", email := "Bugs@example.com", time := 42 }
      { name := "Jane", email := "bugs@example.com", time := 42 }
      (by decide) (by decide) "bugs@example.com" (.email "jane@example.com")).2.1,
   (try_resolve_case_insensitive typicalSnapshot
      { name := "janE", email := "Bugs@example.com", time := 42 }
      { name := "Jane", email := "bugs@example.com", time := 42 }
      (by decide) (by decide) "bugs@example.com" (.email "jane@example.com")).2.2.1 rfl,
   (try_resolve_case_insensitive typicalSnapshot
      { name := "janE", email := "Bugs@example.com", time := 42 }
      { name := "Jane", email := "bugs@example.com", time := 42 }
      (by decide) (by decide) "bugs@example.com" (.name "Jane Doe")).2.2.2 rfl⟩

/-- C4: when the table holds both an email-only rule and a name+email rule
for the same normalized email, a signature matching both resolves via the
name+email rule, whichever order the two rules were inserted in. -/
theorem try_resolve_precedence (n e e' : String) (r1 r2 : Replacement)
    (sig : Signature)
    (hee : lowerAscii e' = lowerAscii e)
    (hse : lowerAscii sig.email = lowerAscii e)
    (hsn : lowerAscii sig.name = lowerAscii n) :
    try_resolve (buildSnapshot [⟨.byEmail e, r1⟩, ⟨.byNameAndEmail n e', r2⟩]) sig
      = some (applyRepl sig (lowerAscii sig.email) r2)
    ∧ try_resolve (buildSnapshot [⟨.byNameAndEmail n e', r2⟩, ⟨.byEmail e, r1⟩]) sig
      = some (applyRepl sig (lowerAscii sig.email) r2) := by
  constructor <;>
    simp [buildSnapshot, insertRule, upsertBucket, insertRepl, try_resolve,
      lookupRepl, hee, hse, hsn]

/-- C4 witness: the two rules of the `non_name_and_name_mappings_will_not_clash`
test, in both insertion orders, on the signature ("old-name", "Old-Email"). -/
theorem try_resolve_precedence_witness :
    try_resolve (buildSnapshot [⟨.byEmail "old-email", .name "new-name"⟩,
        ⟨.byNameAndEmail "old-name" "old-email",
          .nameAndEmail "other-new-name" "other-new-email"⟩])
      { name := "old-name", email := "Old-Email", time := 42 }
      = some { name := "other-new-name", email := "other-new-email", time := 42 }
    ∧ try_resolve (buildSnapshot [⟨.byNameAndEmail "old-name" "old-email",
          .nameAndEmail "other-new-name" "other-new-email"⟩,
        ⟨.byEmail "old-email", .name "new-name"⟩])
      { name := "old-name", email := "Old-Email", time := 42 }
      = some { name := "other-new-name", email := "other-new-email", time := 42 } := by
  have h := try_resolve_precedence "old-name" "old-email" "old-email"
    (.name "new-name") (.nameAndEmail "other-new-name" "other-new-email")
    { name := "old-name", email := "Old-Email", time := 42 }
    (by decide) (by decide) (by decide)
  exact ⟨h.1.trans (by decide), h.2.trans (by decide)⟩

theorem merge_idPair (w : WorkByPerson) (p : WorkByEmail) :
    (w.merge p).idPair = w.idPair := rfl

theorem modifyIdx_map_idPair (l : List WorkByPerson) (p : WorkByEmail) :
    ∀ i, (modifyIdx l i (fun w => w.merge p)).map WorkByPerson.idPair
      = l.map WorkByPerson.idPair := by
  induction l with
  | nil => intro i; rfl
  | cons x xs ih =>
    intro i
    cases i with
    | zero => simp [modifyIdx, merge_idPair]
    | succ m => simp [modifyIdx, ih m]

theorem modifyIdx_length {α : Type} (l : List α) (f : α → α) :
    ∀ i, (modifyIdx l i f).length = l.length := by
  induction l with
  | nil => intro i; rfl
  | cons x xs ih =>
    intro i
    cases i with
    | zero => rfl
    | succ m => simp [modifyIdx, ih m]

/-- The three input records of the no-retroactive-merge scenario: the
third shares its email with the first and its name with the second. -/
def recAnn : WorkByEmail := ⟨"Ann", "ann@a", 1, 1, ⟨0, 0, 0⟩, ⟨0, 0⟩⟩

def recBob : WorkByEmail := ⟨"Bob", "bob@b", 1, 1, ⟨0, 0, 0⟩, ⟨0, 0⟩⟩

def recBridge : WorkByEmail := ⟨"Bob", "ann@a", 1, 1, ⟨0, 0, 0⟩, ⟨0, 0⟩⟩

/-- C3: one step of `deduplicate_identities` behaves exactly as described -
an already-indexed email merges there and additionally indexes the name;
otherwise an already-indexed name merges there and indexes the email;
otherwise a new output record is created, indexed under both keys.  A step
never changes the identity (name, email) of existing output records nor
removes one (first-occurrence order preserved, no retroactive merging),
and concretely a record bridging two existing groups leaves them
unmerged. -/
theorem dedupStep_spec (st : DedupState) (p : WorkByEmail) (i : Nat) :
    (lookupIdx st.email_to_index p.email = some i →
      dedupStep st p
        = { st with out := modifyIdx st.out i (fun w => w.merge p),
                    name_to_index := (p.name, i) :: st.name_to_index })
    ∧ (lookupIdx st.email_to_index p.email = none →
       lookupIdx st.name_to_index p.name = some i →
      dedupStep st p
        = { st with out := modifyIdx st.out i (fun w => w.merge p),
                    email_to_index := (p.email, i) :: st.email_to_index })
    ∧ (lookupIdx st.email_to_index p.email = none →
       lookupIdx st.name_to_index p.name = none →
      dedupStep st p
        = { email_to_index := (p.email, st.out.length) :: st.email_to_index,
            name_to_index := (p.name, st.out.length) :: st.name_to_index,
            out := st.out ++ [WorkByPerson.ofWorkByEmail p] })
    ∧ ((dedupStep st p).out.map WorkByPerson.idPair = st.out.map WorkByPerson.idPair
       ∨ (dedupStep st p).out.map WorkByPerson.idPair
          = st.out.map WorkByPerson.idPair ++ [(p.name, p.email)])
    ∧ deduplicate_identities [recAnn, recBob, recBridge]
        = [⟨"Ann", "ann@a", 2, 2, ⟨0, 0, 0⟩, ⟨0, 0⟩⟩,
           ⟨"Bob", "bob@b", 1, 1, ⟨0, 0, 0⟩, ⟨0, 0⟩⟩] := by
  refine ⟨?_, ?_, ?_, ?_, by
    norm_num +decide [deduplicate_identities, dedupStep, lookupIdx, modifyIdx,
      WorkByPerson.merge, WorkByPerson.ofWorkByEmail, FileStats.add,
      LineStats.add, recAnn, recBob, recBridge]⟩
  · intro he
    unfold dedupStep
    rw [he]
  · intro he hn
    unfold dedupStep
    rw [he, hn]
  · intro he hn
    unfold dedupStep
    rw [he, hn]
  · unfold dedupStep
    cases lookupIdx st.email_to_index p.email with
    | some j => left; simp [modifyIdx_map_idPair]
    | none =>
      cases lookupIdx st.name_to_index p.name with
      | some j => left; simp [modifyIdx_map_idPair]
      | none => right; simp [WorkByPerson.ofWorkByEmail, WorkByPerson.idPair]

/-- C3 witness: the three step cases at concrete states, hypotheses
discharged by evaluation. -/
theorem dedupStep_spec_witness :
    dedupStep ⟨[("ann@a", 0)], [("Ann", 0)],
        [⟨"Ann", "ann@a", 1, 1, ⟨0, 0, 0⟩, ⟨0, 0⟩⟩]⟩ recBridge
      = ⟨[("ann@a", 0)], [("Bob", 0), ("Ann", 0)],
        [⟨"Ann", "ann@a", 2, 2, ⟨0, 0, 0⟩, ⟨0, 0⟩⟩]⟩
    ∧ dedupStep ⟨[("bob@b", 0)], [("Bob", 0)],
        [⟨"Bob", "bob@b", 1, 1, ⟨0, 0, 0⟩, ⟨0, 0⟩⟩]⟩ recBridge
      = ⟨[("ann@a", 0), ("bob@b", 0)], [("Bob", 0)],
        [⟨"Bob", "bob@b", 2, 2, ⟨0, 0, 0⟩, ⟨0, 0⟩⟩]⟩
    ∧ dedupStep ⟨[], [], []⟩ recAnn
      = ⟨[("ann@a", 0)], [("Ann", 0)],
        [⟨"Ann", "ann@a", 1, 1, ⟨0, 0, 0⟩, ⟨0, 0⟩⟩]⟩ :=
  ⟨((dedupStep_spec ⟨[("ann@a", 0)], [("Ann", 0)],
      [⟨"Ann", "ann@a", 1, 1, ⟨0, 0, 0⟩, ⟨0, 0⟩⟩]⟩ recBridge 0).1
      (by decide)).trans (by
        norm_num +decide [modifyIdx, WorkByPerson.merge, FileStats.add,
          LineStats.add, recBridge]),
   ((dedupStep_spec ⟨[("bob@b", 0)], [("Bob", 0)],
      [⟨"Bob", "bob@b", 1, 1, ⟨0, 0, 0⟩, ⟨0, 0⟩⟩]⟩ recBridge 0).2.1
      (by decide) (by decide)).trans (by
        norm_num +decide [modifyIdx, WorkByPerson.merge, FileStats.add,
          LineStats.add, recBridge]),
   ((dedupStep_spec ⟨[], [], []⟩ recAnn 0).2.2.1
      (by decide) (by decide)).trans (by
        norm_num +decide [WorkByPerson.ofWorkByEmail, recAnn])⟩

/-- The bookkeeping invariant of the dedup loop: every index stored in
either table addresses an existing output record. -/
def dedupInv (st : DedupState) : Prop :=
  (∀ k i, lookupIdx st.email_to_index k = some i → i < st.out.length)
  ∧ (∀ k i, lookupIdx st.name_to_index k = some i → i < st.out.length)

theorem sumCommitsP_cons (x : WorkByPerson) (xs : List WorkByPerson) :
    sumCommitsP (x :: xs) = x.num_commits + sumCommitsP xs := by
  simp [sumCommitsP]

theorem sumCommitsP_modifyIdx (l : List WorkByPerson) (p : WorkByEmail) :
    ∀ i, i < l.length →
      sumCommitsP (modifyIdx l i (fun w => w.merge p))
        = sumCommitsP l + p.num_commits := by
  induction l with
  | nil => intro i h; simp at h
  | cons x xs ih =>
    intro i h
    cases i with
    | zero =>
      simp only [modifyIdx, sumCommitsP_cons, WorkByPerson.merge]
      omega
    | succ m =>
      have hm : m < xs.length := by simpa using h
      simp only [modifyIdx, sumCommitsP_cons, ih m hm]
      omega

theorem lookupIdx_cons_bound (m : List (String × Nat)) (k0 : String) (i0 : Nat)
    (bound : Nat) (h0 : i0 < bound)
    (hm : ∀ k i, lookupIdx m k = some i → i < bound) :
    ∀ k i, lookupIdx ((k0, i0) :: m) k = some i → i < bound := by
  intro k i h
  unfold lookupIdx at h
  split at h
  · cases h; exact h0
  · exact hm k i h

theorem dedupStep_inv (st : DedupState) (p : WorkByEmail) (h : dedupInv st) :
    dedupInv (dedupStep st p) := by
  obtain ⟨he, hn⟩ := h
  unfold dedupStep
  cases hle : lookupIdx st.email_to_index p.email with
  | some i =>
    have hi : i < st.out.length := he _ _ hle
    refine ⟨?_, ?_⟩ <;> simp only [modifyIdx_length]
    · exact he
    · exact lookupIdx_cons_bound _ _ _ _ hi hn
  | none =>
    cases hln : lookupIdx st.name_to_index p.name with
    | some i =>
      have hi : i < st.out.length := hn _ _ hln
      refine ⟨?_, ?_⟩ <;> simp only [modifyIdx_length]
      · exact lookupIdx_cons_bound _ _ _ _ hi he
      · exact hn
    | none =>
      constructor <;> simp only [List.length_append, List.length_cons,
        List.length_nil]
      · refine lookupIdx_cons_bound _ _ _ _ (by omega) ?_
        intro k i hk
        have := he k i hk
        omega
      · refine lookupIdx_cons_bound _ _ _ _ (by omega) ?_
        intro k i hk
        have := hn k i hk
        omega

theorem dedupStep_sum (st : DedupState) (p : WorkByEmail) (h : dedupInv st) :
    sumCommitsP (dedupStep st p).out = sumCommitsP st.out + p.num_commits := by
  obtain ⟨he, hn⟩ := h
  unfold dedupStep
  cases hle : lookupIdx st.email_to_index p.email with
  | some i => exact sumCommitsP_modifyIdx st.out p i (he _ _ hle)
  | none =>
    cases hln : lookupIdx st.name_to_index p.name with
    | some i => exact sumCommitsP_modifyIdx st.out p i (hn _ _ hln)
    | none => simp [sumCommitsP, WorkByPerson.ofWorkByEmail]

theorem dedupStep_len (st : DedupState) (p : WorkByEmail) :
    (dedupStep st p).out.length ≤ st.out.length + 1 := by
  unfold dedupStep
  cases lookupIdx st.email_to_index p.email with
  | some i => simp [modifyIdx_length]
  | none =>
    cases lookupIdx st.name_to_index p.name with
    | some i => simp [modifyIdx_length]
    | none => simp

theorem dedup_foldl (l : List WorkByEmail) :
    ∀ st, dedupInv st →
      sumCommitsP (l.foldl dedupStep st).out = sumCommitsP st.out + sumCommitsE l
      ∧ (l.foldl dedupStep st).out.length ≤ st.out.length + l.length := by
  induction l with
  | nil => intro st _; simp [sumCommitsE]
  | cons p rest ih =>
    intro st hst
    have hstep := dedupStep_inv st p hst
    obtain ⟨ihsum, ihlen⟩ := ih (dedupStep st p) hstep
    constructor
    · simp only [List.foldl_cons, ihsum, dedupStep_sum st p hst]
      simp [sumCommitsE]
      omega
    · simp only [List.foldl_cons]
      have := dedupStep_len st p
      calc ((rest.foldl dedupStep (dedupStep st p)).out).length
          ≤ (dedupStep st p).out.length + rest.length := ihlen
        _ ≤ st.out.length + 1 + rest.length := by omega
        _ = st.out.length + (p :: rest).length := by simp; omega

/-- C10: `deduplicate_identities` never produces more output records than
input records, maps every input record into exactly one output record
(total commit counters are conserved), and maps the empty input to the
empty output. -/
theorem deduplicate_identities_invariants (persons : List WorkByEmail) :
    (deduplicate_identities persons).length ≤ persons.length
    ∧ deduplicate_identities [] = []
    ∧ sumCommitsP (deduplicate_identities persons) = sumCommitsE persons := by
  have hinv : dedupInv ⟨[], [], []⟩ := by
    constructor <;> intro k i h <;> simp [lookupIdx] at h
  obtain ⟨hsum, hlen⟩ := dedup_foldl persons ⟨[], [], []⟩ hinv
  refine ⟨?_, rfl, ?_⟩
  · simpa [deduplicate_identities] using hlen
  · simpa [deduplicate_identities, sumCommitsP] using hsum

/-- A minimal diff environment for the concrete change-classification
counterexample: line statistics disabled. -/
def cexDiffEnv : DiffEnv :=
  { line_stats := false, blobLines := fun _ => 0, diffCounts := fun _ _ => .ok none }

/-- C6 counterexample: the claim classifies every change by the pair
(previous entry is a blob, current entry is a blob), under which the
addition of a symbolic-link entry (not a blob on either side) would be
ignored; the code classifies `Addition` by `is_no_tree` and counts it as
one file added. -/
theorem processChange_blob_claim_cex :
    processChange cexDiffEnv (⟨0, 0, 0⟩, ⟨0, 0⟩) (.Addition .link 7)
        = .ok (⟨1, 0, 0⟩, ⟨0, 0⟩)
    ∧ claimProcessChange cexDiffEnv (⟨0, 0, 0⟩, ⟨0, 0⟩) (.Addition .link 7)
        = .ok (⟨0, 0, 0⟩, ⟨0, 0⟩)
    ∧ processChange cexDiffEnv (⟨0, 0, 0⟩, ⟨0, 0⟩) (.Addition .link 7)
        ≠ claimProcessChange cexDiffEnv (⟨0, 0, 0⟩, ⟨0, 0⟩) (.Addition .link 7) := by
  refine ⟨rfl, rfl, ?_⟩
  intro h
  have h1 : processChange cexDiffEnv (⟨0, 0, 0⟩, ⟨0, 0⟩) (.Addition .link 7)
      = .ok (⟨1, 0, 0⟩, ⟨0, 0⟩) := rfl
  have h2 : claimProcessChange cexDiffEnv (⟨0, 0, 0⟩, ⟨0, 0⟩) (.Addition .link 7)
      = .ok (⟨0, 0, 0⟩, ⟨0, 0⟩) := rfl
  rw [h1, h2] at h
  simp at h

/-- C6 (amended): `Addition` and `Deletion` changes are classified by
whether their single entry is not a tree (symbolic links and submodule
references also count as added/removed files); only `Modification`
changes are classified by the pair (previous entry is a blob, current
entry is a blob), with the four cases ignored / added / removed /
modified-with-content-diff exactly as the claim lists them. -/
theorem processChange_classification (env : DiffEnv)
    (acc : FileStats × LineStats) (c : Change) :
    processChange env acc c = amendedProcessChange env acc c := by
  cases c with
  | Rewrite => rfl
  | Addition em id =>
    cases em <;> rfl
  | Deletion em id =>
    cases em <;> rfl
  | Modification pem em pid id =>
    cases hpb : pem.is_blob <;> cases hb : em.is_blob <;>
      simp only [processChange, amendedProcessChange, claimBlobStep, hpb, hb] <;>
      cases hls : env.line_stats <;>
      simp only [Bool.false_eq_true, and_self, if_true, if_false, and_false,
        false_and, Bool.true_eq_false, if_neg, reduceIte] <;>
      first
        | rfl
        | (cases hdc : env.diffCounts pid id with
            | error e => simp [hdc]
            | ok oc => cases oc <;> simp [hdc])

theorem workerGo_count (env : WorkerEnv) (k : Nat)
    (hok : ∀ it, ∃ s, processItem env it = .ok (some s))
    (hint : ∀ m, env.interrupt m = decide (k < m)) :
    ∀ (chunks : List (List WorkItem)) (cur : List WorkItem) (n : Nat)
      (out : List (Nat × FileStats × LineStats)),
      n ≤ k → k ≤ n + cur.length + (chunks.map List.length).sum →
      ∃ l, workerGo env cur chunks n out = .ok l
        ∧ l.length = out.length + (k - n) := by
  intro chunks
  induction chunks with
  | nil =>
    intro cur
    induction cur with
    | nil =>
      intro n out h1 h2
      refine ⟨out, by simp [workerGo], ?_⟩
      simp at h2
      omega
    | cons it its ih =>
      intro n out h1 h2
      rcases Nat.lt_or_ge n k with hlt | hge
      · have hintf : env.interrupt (n + 1) = false := by
          rw [hint]
          simp
          omega
        obtain ⟨s, hs⟩ := hok it
        obtain ⟨l, hl, hlen⟩ := ih (n + 1) (out ++ [s]) (by omega)
          (by simp at h2 ⊢; omega)
        refine ⟨l, ?_, ?_⟩
        · have step : workerGo env (it :: its) [] n out
              = workerGo env its [] (n + 1) (out ++ [s]) := by
            simp [workerGo, hintf, hs]
          rw [step]
          exact hl
        · simp at hlen
          omega
      · have hnk : n = k := le_antisymm h1 hge
        have hintt : env.interrupt (n + 1) = true := by
          rw [hint]
          simp
          omega
        refine ⟨out, by simp [workerGo, hintt], by omega⟩
  | cons chunk rest oih =>
    intro cur
    induction cur with
    | nil =>
      intro n out h1 h2
      have step : workerGo env [] (chunk :: rest) n out
          = workerGo env chunk rest n out := by
        simp [workerGo]
      rw [step]
      refine oih chunk n out h1 ?_
      simp at h2 ⊢
      omega
    | cons it its ih =>
      intro n out h1 h2
      rcases Nat.lt_or_ge n k with hlt | hge
      · have hintf : env.interrupt (n + 1) = false := by
          rw [hint]
          simp
          omega
        obtain ⟨s, hs⟩ := hok it
        obtain ⟨l, hl, hlen⟩ := ih (n + 1) (out ++ [s]) (by omega)
          (by simp at h2 ⊢; omega)
        refine ⟨l, ?_, ?_⟩
        · have step : workerGo env (it :: its) (chunk :: rest) n out
              = workerGo env its (chunk :: rest) (n + 1) (out ++ [s]) := by
            simp [workerGo, hintf, hs]
          rw [step]
          exact hl
        · simp at hlen
          omega
      · have hnk : n = k := le_antisymm h1 hge
        have hintt : env.interrupt (n + 1) = true := by
          rw [hint]
          simp
          omega
        refine ⟨out, by simp [workerGo, hintt], by omega⟩

/-- C7: the interrupt flag is consulted before each individual work item
(not only at batch boundaries) and, once found set, the worker stops
consuming and returns its accumulated partial result list as a success;
when the flag becomes set after exactly 3 items have entered processing
and 10 fully processable items are queued in any batching, the worker's
result list has exactly 3 entries and no error. -/
theorem worker_cancellation :
    (∀ (env : WorkerEnv) (item : WorkItem) (items : List WorkItem)
       (rest : List (List WorkItem)) (n : Nat)
       (out : List (Nat × FileStats × LineStats)),
      env.interrupt (n + 1) = true →
      workerGo env (item :: items) rest n out = .ok out)
    ∧ (∀ (env : WorkerEnv) (chunks : List (List WorkItem)),
      (∀ it, ∃ s, processItem env it = .ok (some s)) →
      (∀ m, env.interrupt m = decide (3 < m)) →
      (chunks.map List.length).sum = 10 →
      ∃ l, runWorker env chunks = .ok l ∧ l.length = 3) := by
  constructor
  · intro env item items rest n out h
    simp [workerGo, h]
  · intro env chunks hok hint htotal
    obtain ⟨l, hl, hlen⟩ := workerGo_count env 3 hok hint chunks [] 0 []
      (by omega) (by simp [htotal])
    exact ⟨l, hl, by simpa using hlen⟩

/-- A benign worker environment for the cancellation witness: every object
resolves, every diff is empty, and the interrupt flag becomes set once
more than 3 items have entered processing. -/
def cancelEnv : WorkerEnv :=
  { diff := cexDiffEnv
    resolveTree := fun id => some id
    emptyTree := 0
    changesOf := fun _ _ => .ok []
    interrupt := fun m => decide (3 < m) }

/-- A root-commit work item with index `j`. -/
def rootItem (j : Nat) : WorkItem :=
  { commit_idx := j, parent_commit := none, commit := j }

/-- C7 witness: with 10 items split into batches of 4 and 6, the worker
stops mid-batch with exactly 3 results and no error; and a worker that
observes the set flag returns its accumulated output unchanged. -/
theorem worker_cancellation_witness :
    workerGo cancelEnv [rootItem 0] [] 7 [] = .ok []
    ∧ (∃ l, runWorker cancelEnv
        [[rootItem 0, rootItem 1, rootItem 2, rootItem 3],
         [rootItem 4, rootItem 5, rootItem 6, rootItem 7, rootItem 8, rootItem 9]]
        = .ok l ∧ l.length = 3) :=
  ⟨worker_cancellation.1 cancelEnv (rootItem 0) [] [] 7 [] (by decide),
   worker_cancellation.2 cancelEnv
    [[rootItem 0, rootItem 1, rootItem 2, rootItem 3],
     [rootItem 4, rootItem 5, rootItem 6, rootItem 7, rootItem 8, rootItem 9]]
    (by
      intro it
      refine ⟨(it.commit_idx, ⟨0, 0, 0⟩, ⟨0, 0⟩), ?_⟩
      rcases it with ⟨idx, pc, c⟩
      cases pc <;> rfl)
    (fun m => rfl)
    (by decide)⟩

/-- C8: a work item whose parent commit id does not resolve to a tree is
skipped with no error, one whose commit id does not resolve is skipped
with no error, an item with no parent id is diffed against the empty
tree, and at the loop level a skipped item contributes nothing to the
worker's output beyond advancing the item counter. -/
theorem worker_skip_missing :
    (∀ (env : WorkerEnv) (item : WorkItem) (p : Nat),
      item.parent_commit = some p → env.resolveTree p = none →
      processItem env item = .ok none)
    ∧ (∀ (env : WorkerEnv) (item : WorkItem),
      env.resolveTree item.commit = none → processItem env item = .ok none)
    ∧ (∀ (env : WorkerEnv) (idx c : Nat),
      processItem env { commit_idx := idx, parent_commit := none, commit := c }
        = match env.resolveTree c with
          | none => .ok none
          | some t =>
            match env.changesOf env.emptyTree t with
            | .error e => .error e
            | .ok cs =>
              match foldChanges env.diff cs with
              | .error e => .error e
              | .ok fl => .ok (some (idx, fl.1, fl.2)))
    ∧ (∀ (env : WorkerEnv) (item : WorkItem) (items : List WorkItem)
        (rest : List (List WorkItem)) (n : Nat)
        (out : List (Nat × FileStats × LineStats)),
      env.interrupt (n + 1) = false → processItem env item = .ok none →
      workerGo env (item :: items) rest n out = workerGo env items rest (n + 1) out) := by
  refine ⟨?_, ?_, ?_, ?_⟩
  · intro env item p hp hres
    simp [processItem, hp, hres]
  · intro env item hres
    rcases item with ⟨idx, pc, c⟩
    cases pc with
    | none => simp [processItem, hres]
    | some p =>
      cases hrp : env.resolveTree p with
      | none => simp [processItem, hrp]
      | some t => simp [processItem, hrp, hres]
  · intro env idx c
    rfl
  · intro env item items rest n out hflag hproc
    simp [workerGo, hflag, hproc]

/-- An environment in which no object resolves, for the skip witness. -/
def missingEnv : WorkerEnv :=
  { diff := cexDiffEnv
    resolveTree := fun _ => none
    emptyTree := 0
    changesOf := fun _ _ => .ok []
    interrupt := fun _ => false }

/-- C8 witness: items with an unresolvable parent or commit are skipped
with no error, and skipping leaves the worker's output untouched. -/
theorem worker_skip_missing_witness :
    processItem missingEnv { commit_idx := 5, parent_commit := some 3, commit := 7 }
      = .ok none
    ∧ processItem missingEnv { commit_idx := 5, parent_commit := none, commit := 7 }
      = .ok none
    ∧ workerGo missingEnv [{ commit_idx := 5, parent_commit := some 3, commit := 7 }]
        [] 0 []
      = workerGo missingEnv [] [] 1 [] :=
  ⟨worker_skip_missing.1 missingEnv
      { commit_idx := 5, parent_commit := some 3, commit := 7 } 3 rfl rfl,
   worker_skip_missing.2.1 missingEnv
      { commit_idx := 5, parent_commit := none, commit := 7 } rfl,
   worker_skip_missing.2.2.2 missingEnv
      { commit_idx := 5, parent_commit := some 3, commit := 7 } [] [] 0 [] rfl rfl⟩

end Gitoxide
